import Mathlib

/-!
# Navigation data of the generated documentation (`html/navtreedata.js`)

The script consists of five `var` declarations with literal initialisers.  The
literals are embedded as values of `JSVal`; the viewer reads a node `n` of the
tree as `n[0]` (label), `n[1]` (link) and `n[2]` (children).
-/

set_option maxRecDepth 100000

namespace NavTreeData

/-- Literal values occurring in the script: `null`, string literals and array literals. -/
inductive JSVal where
  | null : JSVal
  | str : String → JSVal
  | arr : List JSVal → JSVal
  deriving Repr

namespace JSVal

mutual
/-- Decision procedure for equality of literal values. -/
def decEq : (a b : JSVal) → Decidable (a = b)
  | .null, .null => isTrue rfl
  | .null, .str _ => isFalse (fun h => by cases h)
  | .null, .arr _ => isFalse (fun h => by cases h)
  | .str _, .null => isFalse (fun h => by cases h)
  | .str s, .str t =>
      if h : s = t then isTrue (by rw [h]) else isFalse (fun h2 => by cases h2; exact h rfl)
  | .str _, .arr _ => isFalse (fun h => by cases h)
  | .arr _, .null => isFalse (fun h => by cases h)
  | .arr _, .str _ => isFalse (fun h => by cases h)
  | .arr xs, .arr ys =>
      match decEqList xs ys with
      | isTrue h => isTrue (by rw [h])
      | isFalse h => isFalse (fun h2 => by cases h2; exact h rfl)
/-- Decision procedure for equality of lists of literal values. -/
def decEqList : (a b : List JSVal) → Decidable (a = b)
  | [], [] => isTrue rfl
  | [], _ :: _ => isFalse (fun h => by cases h)
  | _ :: _, [] => isFalse (fun h => by cases h)
  | x :: xs, y :: ys =>
      match decEq x y, decEqList xs ys with
      | isTrue h1, isTrue h2 => isTrue (by rw [h1, h2])
      | isFalse h1, _ => isFalse (fun h => by cases h; exact h1 rfl)
      | _, isFalse h2 => isFalse (fun h => by cases h; exact h2 rfl)
end

instance : DecidableEq JSVal := decEq

/-- Array indexing `v[i]`; `none` stands for `undefined`. -/
def get : JSVal → Nat → Option JSVal
  | .arr xs, i => xs.get? i
  | _, _ => none

/-- The label of a node, `n[0]`. -/
def label (n : JSVal) : Option JSVal := n.get 0

/-- The link of a node, `n[1]`. -/
def link (n : JSVal) : Option JSVal := n.get 1

/-- The children component of a node, `n[2]`. -/
def children (n : JSVal) : Option JSVal := n.get 2

mutual
/-- A node followed by all nodes below it, in document order.  Only an
array-valued children component is descended into. -/
def subtree : JSVal → List JSVal
  | .arr (a :: b :: .arr cs :: rest) => .arr (a :: b :: .arr cs :: rest) :: forest cs
  | v => [v]
/-- The nodes of a sequence of sibling nodes, in document order. -/
def forest : List JSVal → List JSVal
  | [] => []
  | x :: xs => subtree x ++ forest xs
end

/-- All nodes of a tree given as the array of its top-level nodes, in pre-order. -/
def nodes : JSVal → List JSVal
  | .arr xs => forest xs
  | _ => []

end JSVal

open JSVal

/-- The value of `var NAVTREE`. -/
def NAVTREE : JSVal :=
  .arr [
    .arr [.str "DOKUMENTATION", .str "index.html", .arr [
      .arr [.str "Peer-to-Peer Chat – Dokumentation", .str "index.html#autotoc_md0", .arr [
        .arr [.str "Projektüberblick", .str "index.html#autotoc_md2", .arr [
          .arr [.str "Gruppenmitglieder", .str "index.html#autotoc_md3", .null],
          .arr [.str "Abgabedatum / Semester / Kurs", .str "index.html#autotoc_md4", .null]
        ]],
        .arr [.str "Architektur", .str "index.html#autotoc_md6", .null],
        .arr [.str "Verwendete Technologien &amp; Tools", .str "index.html#autotoc_md8", .null],
        .arr [.str "Protokollübersicht (SLCP)", .str "index.html#autotoc_md10", .arr [
          .arr [.str "Ablauf beim Anmelden im Chat", .str "index.html#autotoc_md12", .null],
          .arr [.str "Ablauf beim Abmelden aus dem Chat", .str "index.html#autotoc_md14", .null],
          .arr [.str "Ablauf beim Abfragen und Empfangen der Nutzerliste", .str "index.html#autotoc_md16", .null],
          .arr [.str "Ablauf beim Senden einer Textnachricht", .str "index.html#autotoc_md18", .null],
          .arr [.str "Ablauf beim Senden eines Bildes", .str "index.html#autotoc_md20", .null],
          .arr [.str "Ausgabe-Beispiel", .str "index.html#autotoc_md22", .null]
        ]],
        .arr [.str "Teilprobleme und Lösungsansätze (Fehleranalyse)", .str "index.html#autotoc_md24", .arr [
          .arr [.str "IndexError beim Parsen von Benutzerdaten", .str "index.html#autotoc_md26", .null],
          .arr [.str "Relativer Bildpfad und Ordnerprüfung", .str "index.html#autotoc_md28", .null],
          .arr [.str "Konsistente CLI-Befehle und Hilfeanzeige", .str "index.html#autotoc_md30", .null],
          .arr [.str "Flexibler Umgang mit Peer-Daten (JOIN/KNOWNUSERS)", .str "index.html#autotoc_md32", .null],
          .arr [.str "Konsolidierung mehrerer KNOWNUSERS-Antworten", .str "index.html#autotoc_md34", .null],
          .arr [.str "Verbesserte Anzeige des Absenders", .str "index.html#autotoc_md36", .null],
          .arr [.str "Doppelte Einträge in WHO/KNOWNUSERS-Liste", .str "index.html#autotoc_md38", .null]
        ]],
        .arr [.str "Bedienung", .str "index.html#autotoc_md41", .null]
      ]],
      .arr [.str "mainpage2", .str "md_mainpage2.html", .null],
      .arr [.str "Namensbereiche", .str "namespaces.html", .arr [
        .arr [.str "Liste aller Namensbereiche", .str "namespaces.html", .str "namespaces_dup"],
        .arr [.str "Elemente eines Namensbereiches", .str "namespacemembers.html", .arr [
          .arr [.str "Alle", .str "namespacemembers.html", .null],
          .arr [.str "Funktionen", .str "namespacemembers_func.html", .null]
        ]]
      ]],
      .arr [.str "Klassen", .str "annotated.html", .arr [
        .arr [.str "Auflistung der Klassen", .str "annotated.html", .str "annotated_dup"],
        .arr [.str "Klassen-Verzeichnis", .str "classes.html", .null],
        .arr [.str "Klassenhierarchie", .str "hierarchy.html", .str "hierarchy"],
        .arr [.str "Klassen-Elemente", .str "functions.html", .arr [
          .arr [.str "Alle", .str "functions.html", .null],
          .arr [.str "Funktionen", .str "functions_func.html", .null]
        ]]
      ]],
      .arr [.str "Dateien", .str "files.html", .arr [
        .arr [.str "Auflistung der Dateien", .str "files.html", .str "files_dup"]
      ]]
    ]]
  ]

/-- The value of `var NAVTREEINDEX`. -/
def NAVTREEINDEX : JSVal :=
  .arr [
    .str "annotated.html"
  ]

/-- The value of `var SYNCONMSG`. -/
def SYNCONMSG : JSVal := .str "Klicken um Panelsynchronisation auszuschalten"

/-- The value of `var SYNCOFFMSG`. -/
def SYNCOFFMSG : JSVal := .str "Klicken um Panelsynchronisation einzuschalten"

/-- The value of `var LISTOFALLMEMBERS`. -/
def LISTOFALLMEMBERS : JSVal := .str "Aufstellung aller Elemente"

/-! ## Top-level structure of the script -/

/-- Top-level statement forms of a script: a `var` declaration with a literal
initialiser, or a function declaration. -/
inductive TopLevel where
  | varDecl : String → JSVal → TopLevel
  | funDecl : String → TopLevel

/-- The top-level statements of `navtreedata.js`, in source order. -/
def navtreedata : List TopLevel :=
  [ .varDecl "NAVTREE" NAVTREE,
    .varDecl "NAVTREEINDEX" NAVTREEINDEX,
    .varDecl "SYNCONMSG" SYNCONMSG,
    .varDecl "SYNCOFFMSG" SYNCOFFMSG,
    .varDecl "LISTOFALLMEMBERS" LISTOFALLMEMBERS ]

/-- The name a top-level statement defines. -/
def TopLevel.name : TopLevel → String
  | .varDecl x _ => x
  | .funDecl f => f

/-- Whether a top-level statement defines a function. -/
def TopLevel.isFunction : TopLevel → Bool
  | .varDecl _ _ => false
  | .funDecl _ => true

/-- Whether a value is an array literal. -/
def JSVal.isArray : JSVal → Bool
  | .arr _ => true
  | _ => false

/-- Whether a value is a string literal. -/
def JSVal.isString : JSVal → Bool
  | .str _ => true
  | _ => false

/-- The literal a name is initialised with, if the script declares it with `var`. -/
def initialiser (prog : List TopLevel) (x : String) : Option JSVal :=
  match prog with
  | [] => none
  | .varDecl y v :: rest => if y = x then some v else initialiser rest x
  | .funDecl _ :: rest => initialiser rest x

/-! ## Well-formedness predicates -/

/-- A node is a three-component array whose label and link are non-empty strings. -/
def labelledTriple : JSVal → Bool
  | .arr [.str l, .str k, _] => l ≠ "" && k ≠ ""
  | _ => false

mutual
/-- Well-formed node in the sense of the data model: a triple of a string label,
a string link and children that are `null` or a sequence of well-formed nodes. -/
def wellFormed : JSVal → Bool
  | .arr [.str _, .str _, .null] => true
  | .arr [.str _, .str _, .arr cs] => wellFormedAll cs
  | _ => false
/-- Every member of a sequence is a well-formed node. -/
def wellFormedAll : List JSVal → Bool
  | [] => true
  | x :: xs => wellFormed x && wellFormedAll xs
end

mutual
/-- Well-formed node when a children component may also be a string naming a
subtree that is loaded on demand. -/
def wellFormedDeferred : JSVal → Bool
  | .arr [.str _, .str _, .null] => true
  | .arr [.str _, .str _, .str _] => true
  | .arr [.str _, .str _, .arr cs] => wellFormedDeferredAll cs
  | _ => false
/-- Every member of a sequence is a well-formed node, deferred subtrees allowed. -/
def wellFormedDeferredAll : List JSVal → Bool
  | [] => true
  | x :: xs => wellFormedDeferred x && wellFormedDeferredAll xs
end

/-- The children of `n` are `null` or a sequence of well-formed nodes. -/
def ChildrenNullOrNodes (n : JSVal) : Prop :=
  children n = some .null ∨
    ∃ cs, children n = some (.arr cs) ∧ ∀ c ∈ cs, wellFormed c = true

/-- The children of `n` are `null`, a string, or a sequence of nodes that are
well-formed with deferred subtrees allowed. -/
def ChildrenNullNameOrNodes (n : JSVal) : Prop :=
  children n = some .null ∨ (∃ s, children n = some (.str s)) ∨
    ∃ cs, children n = some (.arr cs) ∧ ∀ c ∈ cs, wellFormedDeferred c = true

/-- Executable form of `ChildrenNullNameOrNodes`. -/
def childrenCheck (n : JSVal) : Bool :=
  match children n with
  | some .null => true
  | some (.str _) => true
  | some (.arr cs) => wellFormedDeferredAll cs
  | none => false

/-- Node `c` is a member of the array-valued children of node `p`. -/
def IsChildOf (c p : JSVal) : Prop :=
  ∃ cs, children p = some (.arr cs) ∧ c ∈ cs

/-- Node `n` is reached from `r` through one or more array-valued children. -/
inductive Descendant (r : JSVal) : JSVal → Prop where
  | child {c : JSVal} : IsChildOf c r → Descendant r c
  | step {p c : JSVal} : Descendant r p → IsChildOf c p → Descendant r c

/-! ## Links -/

/-- The link of a node as a string, when `n[1]` is a string. -/
def linkString (n : JSVal) : Option String :=
  match link n with
  | some (.str k) => some k
  | _ => none

/-- Split a string at its first `#`: the part before it, and the part after it
when there is a `#`. -/
def splitHash : List Char → List Char × Option (List Char)
  | [] => ([], none)
  | c :: cs =>
    if c = '#' then ([], some cs)
    else match splitHash cs with
      | (pre, rest) => (c :: pre, rest)

/-- Remove the suffix `.html`: `some page` exactly when the string is `page ++ ".html"`. -/
def stripHtml : List Char → Option (List Char)
  | [] => none
  | c :: cs =>
    if c :: cs = ".html".data then some []
    else match stripHtml cs with
      | some page => some (c :: page)
      | none => none

/-- A link of the form `<page>.html`, optionally followed by `#` and a non-empty
anchor name, where `<page>` is non-empty and contains neither `#` nor `/`. -/
def IsPageLink (s : String) : Prop :=
  ∃ page : String, page ≠ "" ∧ '#' ∉ page.data ∧ '/' ∉ page.data ∧
    (s = page ++ ".html" ∨
      ∃ anchor : String, anchor ≠ "" ∧ s = page ++ ".html" ++ "#" ++ anchor)

/-- Executable form of `IsPageLink`. -/
def pageLinkCheck (s : String) : Bool :=
  match splitHash s.data with
  | (pre, rest) =>
    (match stripHtml pre with
      | some page => page ≠ [] && decide ('/' ∉ page)
      | none => false) &&
    (match rest with
      | none => true
      | some anchor => anchor ≠ [])

/-- Lexicographic comparison of character sequences by character code, `a ≤ b`. -/
def leChars : List Char → List Char → Bool
  | [], _ => true
  | _ :: _, [] => false
  | a :: as, b :: bs => a.toNat < b.toNat || (a.toNat == b.toNat && leChars as bs)

/-- String comparison `a <= b` of the script language, by character code. -/
def strLe (a b : String) : Bool := leChars a.data b.data

/-- The entries of an index array that are strings. -/
def indexEntries : JSVal → List String
  | .arr xs => xs.filterMap (fun v => match v with | .str s => some s | _ => none)
  | _ => []

/-- Number of leading entries of an index that are `<=` the link. -/
def leadingLe : List String → String → Nat
  | [], _ => 0
  | e :: es, url => if strLe e url then leadingLe es url + 1 else 0

/-- Modelled from the spec: the range lookup of the documentation viewer over
`NAVTREEINDEX`, which is not part of `navtreedata.js`.  Entry `i` covers the links
from that entry up to the next one; the lookup walks the index while the entry
is `<=` the link and returns the last index reached, `none` when the link
precedes the first entry. -/
def rangeLookup (index : List String) (url : String) : Option Nat :=
  match leadingLe index url with
  | 0 => none
  | i + 1 => some i

/-! ## Anchors -/

/-- Remove a leading string: `some rest` exactly when the input is `pre ++ rest`. -/
def dropLeading : List Char → List Char → Option (List Char)
  | [], s => some s
  | _ :: _, [] => none
  | p :: ps, c :: cs => if p = c then dropLeading ps cs else none

/-- Value of a sequence of decimal digits appended to the number `acc`. -/
def digitsValue : List Char → Nat → Option Nat
  | [], acc => some acc
  | c :: cs, acc =>
    if c.isDigit then digitsValue cs (10 * acc + (c.toNat - 48)) else none

/-- Value of a non-empty sequence of decimal digits. -/
def parseNat : List Char → Option Nat
  | [] => none
  | c :: cs => digitsValue (c :: cs) 0

/-- The number `N` of a link of the form `index.html#autotoc_md<N>`. -/
def autotocNumber (s : String) : Option Nat :=
  match dropLeading "index.html#autotoc_md".data s.data with
  | some rest => parseNat rest
  | none => none

/-- The numbers of the `autotoc_md` links of a tree, in pre-order. -/
def autotocNumbers (tree : JSVal) : List Nat :=
  (nodes tree).filterMap (fun n => (linkString n).bind autotocNumber)

/-- The links of a tree that carry an anchor (contain `#`), in pre-order, one
per node. -/
def anchorLinks (tree : JSVal) : List String :=
  ((nodes tree).filterMap linkString).filter (fun k => decide ('#' ∈ k.data))

/-! ## Deferred subtrees -/

mutual
/-- The nodes of `subtree`, each paired with its parent node. -/
def subtreeWithParent (p : Option JSVal) : JSVal → List (Option JSVal × JSVal)
  | .arr (a :: b :: .arr cs :: rest) =>
    (p, .arr (a :: b :: .arr cs :: rest)) ::
      forestWithParent (some (.arr (a :: b :: .arr cs :: rest))) cs
  | v => [(p, v)]
/-- The nodes of `forest`, each paired with its parent node. -/
def forestWithParent (p : Option JSVal) : List JSVal → List (Option JSVal × JSVal)
  | [] => []
  | x :: xs => subtreeWithParent p x ++ forestWithParent p xs
end

/-- All nodes of a tree in pre-order, each paired with its parent node; the
top-level nodes have none. -/
def nodesWithParent : JSVal → List (Option JSVal × JSVal)
  | .arr xs => forestWithParent none xs
  | _ => []

/-- Executable form of the naming rule of deferred subtrees: a string-valued
children component is the link without `.html`, followed by `_dup` exactly when
the link equals the link of the parent. -/
def deferredNameCheck (p : Option JSVal) (n : JSVal) : Bool :=
  match children n with
  | some (.str s) =>
    (match link n with
      | some (.str k) =>
        (match stripHtml k.data with
          | some base =>
            if p.bind link = some (.str k) then s.data = base ++ "_dup".data
            else s.data = base
          | none => false)
      | _ => false)
  | _ => true

/-! ## Lemmas -/

theorem labelledTriple_sound {n : JSVal} (h : labelledTriple n = true) :
    ∃ l k c, n = .arr [.str l, .str k, c] ∧ l ≠ "" ∧ k ≠ "" := by
  unfold labelledTriple at h
  split at h
  · rename_i l k c
    simp at h
    exact ⟨l, k, c, rfl, h.1, h.2⟩
  · simp at h

theorem wellFormedDeferredAll_mem {cs : List JSVal} (h : wellFormedDeferredAll cs = true) :
    ∀ c ∈ cs, wellFormedDeferred c = true := by
  induction cs with
  | nil => intro c hc; cases hc
  | cons x xs ih =>
    simp [wellFormedDeferredAll] at h
    intro c hc
    rcases List.mem_cons.mp hc with rfl | hc
    · exact h.1
    · exact ih h.2 c hc

theorem childrenCheck_sound {n : JSVal} (h : childrenCheck n = true) :
    ChildrenNullNameOrNodes n := by
  unfold childrenCheck at h
  split at h
  · next heq => exact Or.inl heq
  · next s heq => exact Or.inr (Or.inl ⟨s, heq⟩)
  · next cs heq => exact Or.inr (Or.inr ⟨cs, heq, wellFormedDeferredAll_mem h⟩)
  · simp at h

theorem Descendant.of_child {r c n : JSVal} (hc : IsChildOf c r) (h : Descendant c n) :
    Descendant r n := by
  induction h with
  | child h1 => exact .step (.child hc) h1
  | step _ h2 ih => exact .step ih h2

mutual
theorem subtree_descendant : ∀ (v n : JSVal), n ∈ subtree v → n = v ∨ Descendant v n
  | .arr (a :: b :: .arr cs :: rest), n, h => by
    simp only [subtree, List.mem_cons] at h
    rcases h with h | h
    · exact Or.inl h
    · obtain ⟨c, hc, hn⟩ := forest_descendant cs n h
      have hchild : IsChildOf c (.arr (a :: b :: .arr cs :: rest)) := ⟨cs, rfl, hc⟩
      rcases hn with rfl | hn
      · exact Or.inr (.child hchild)
      · exact Or.inr (Descendant.of_child hchild hn)
  | .null, n, h => by simp [subtree] at h; exact Or.inl h
  | .str _, n, h => by simp [subtree] at h; exact Or.inl h
  | .arr [], n, h => by simp [subtree] at h; exact Or.inl h
  | .arr [_], n, h => by simp [subtree] at h; exact Or.inl h
  | .arr [_, _], n, h => by simp [subtree] at h; exact Or.inl h
  | .arr (_ :: _ :: .null :: _), n, h => by simp [subtree] at h; exact Or.inl h
  | .arr (_ :: _ :: .str _ :: _), n, h => by simp [subtree] at h; exact Or.inl h
theorem forest_descendant : ∀ (cs : List JSVal) (n : JSVal), n ∈ forest cs →
    ∃ c ∈ cs, n = c ∨ Descendant c n
  | [], n, h => by simp [forest] at h
  | x :: xs, n, h => by
    simp only [forest, List.mem_append] at h
    rcases h with h | h
    · exact ⟨x, List.mem_cons_self _ _, subtree_descendant x n h⟩
    · obtain ⟨c, hc, hn⟩ := forest_descendant xs n h
      exact ⟨c, List.mem_cons_of_mem _ hc, hn⟩
end

theorem linkString_eq_some {n : JSVal} {k : String} (h : linkString n = some k) :
    link n = some (.str k) := by
  unfold linkString at h
  split at h
  · next k2 heq => simp at h; rw [heq, h]
  · simp at h

theorem splitHash_none : ∀ (l : List Char), (splitHash l).2 = none →
    (splitHash l).1 = l ∧ '#' ∉ l
  | [], _ => by simp [splitHash]
  | c :: cs, h => by
    by_cases hc : c = '#'
    · simp [splitHash, hc] at h
    · simp only [splitHash, hc, if_false] at h ⊢
      have ih := splitHash_none cs h
      refine ⟨by rw [ih.1], ?_⟩
      intro hmem
      rcases List.mem_cons.mp hmem with heq | hmem
      · exact hc heq.symm
      · exact ih.2 hmem

theorem splitHash_some : ∀ (l r : List Char), (splitHash l).2 = some r →
    l = (splitHash l).1 ++ '#' :: r ∧ '#' ∉ (splitHash l).1
  | [], r, h => by simp [splitHash] at h
  | c :: cs, r, h => by
    by_cases hc : c = '#'
    · simp only [splitHash, hc, if_true, Option.some.injEq] at h ⊢
      subst h
      simp
    · simp only [splitHash, hc, if_false] at h ⊢
      have ih := splitHash_some cs r h
      refine ⟨by rw [List.cons_append, ← ih.1], ?_⟩
      intro hmem
      rcases List.mem_cons.mp hmem with heq | hmem
      · exact hc heq.symm
      · exact ih.2 hmem

theorem stripHtml_sound : ∀ (l page : List Char), stripHtml l = some page →
    l = page ++ ".html".data
  | [], page, h => by simp [stripHtml] at h
  | c :: cs, page, h => by
    by_cases hc : c :: cs = ".html".data
    · simp only [stripHtml, hc, if_true, Option.some.injEq] at h
      subst h
      simpa using hc
    · simp only [stripHtml, hc, if_false] at h
      split at h
      · next p heq =>
        simp only [Option.some.injEq] at h
        subst h
        rw [List.cons_append, ← stripHtml_sound cs p heq]
      · simp at h

theorem pageLinkCheck_sound {s : String} (h : pageLinkCheck s = true) : IsPageLink s := by
  unfold pageLinkCheck at h
  simp only [Bool.and_eq_true] at h
  obtain ⟨h1, h2⟩ := h
  split at h1
  · next page hpage =>
    simp only [Bool.and_eq_true, decide_eq_true_eq] at h1
    have hpre := stripHtml_sound _ _ hpage
    have hne : (String.mk page) ≠ "" := by
      intro hE
      apply h1.1
      have := congrArg String.data hE
      simpa using this
    split at h2
    · next hrest =>
      have hs := splitHash_none s.data hrest
      refine ⟨String.mk page, hne, ?_, h1.2, Or.inl ?_⟩
      · intro hmem
        apply hs.2
        rw [← hs.1, hpre]
        exact List.mem_append_left _ hmem
      · apply String.ext
        rw [String.data_append, ← hs.1, hpre]
    · next anchor hrest =>
      simp only [decide_eq_true_eq] at h2
      have hs := splitHash_some s.data anchor hrest
      have hane : (String.mk anchor) ≠ "" := by
        intro hE
        apply h2
        have := congrArg String.data hE
        simpa using this
      refine ⟨String.mk page, hne, ?_, h1.2, Or.inr ⟨String.mk anchor, hane, ?_⟩⟩
      · intro hmem
        apply hs.2
        rw [hpre]
        exact List.mem_append_left _ hmem
      · apply String.ext
        simp only [String.data_append]
        rw [hs.1, hpre]
        simp
  · simp at h1

theorem deferredNameCheck_sound {p : Option JSVal} {n : JSVal} {s : String}
    (h : deferredNameCheck p n = true) (hs : children n = some (.str s)) :
    ∃ k base : String, link n = some (.str k) ∧ k = base ++ ".html" ∧
      (p.bind link = some (.str k) → s = base ++ "_dup") ∧
      (p.bind link ≠ some (.str k) → s = base) := by
  unfold deferredNameCheck at h
  rw [hs] at h
  simp only at h
  split at h
  · next k hk =>
    split at h
    · next base hbase =>
      have hk2 := stripHtml_sound _ _ hbase
      refine ⟨k, String.mk base, hk, ?_, ?_, ?_⟩
      · apply String.ext
        rw [String.data_append, hk2]
      · intro hp
        rw [if_pos hp] at h
        apply String.ext
        rw [String.data_append]
        simpa using h
      · intro hp
        rw [if_neg hp] at h
        apply String.ext
        simpa using h
    · simp at h
  · simp at h

theorem subtree_eq_children : ∀ (v : JSVal),
    subtree v = v :: (match children v with
      | some (.arr cs) => forest cs
      | _ => [])
  | .arr (_ :: _ :: .arr _ :: _) => by simp [subtree, children, JSVal.get]
  | .null => by simp [subtree, children, JSVal.get]
  | .str _ => by simp [subtree, children, JSVal.get]
  | .arr [] => by simp [subtree, children, JSVal.get]
  | .arr [_] => by simp [subtree, children, JSVal.get]
  | .arr [_, _] => by simp [subtree, children, JSVal.get]
  | .arr (_ :: _ :: .null :: _) => by simp [subtree, children, JSVal.get]
  | .arr (_ :: _ :: .str _ :: _) => by simp [subtree, children, JSVal.get]

mutual
theorem subtreeWithParent_snd : ∀ (q : Option JSVal) (v : JSVal),
    (subtreeWithParent q v).map Prod.snd = subtree v
  | q, .arr (a :: b :: .arr cs :: rest) => by
    simp only [subtreeWithParent, subtree, List.map_cons]
    rw [forestWithParent_snd _ cs]
  | _, .null => by simp [subtreeWithParent, subtree]
  | _, .str _ => by simp [subtreeWithParent, subtree]
  | _, .arr [] => by simp [subtreeWithParent, subtree]
  | _, .arr [_] => by simp [subtreeWithParent, subtree]
  | _, .arr [_, _] => by simp [subtreeWithParent, subtree]
  | _, .arr (_ :: _ :: .null :: _) => by simp [subtreeWithParent, subtree]
  | _, .arr (_ :: _ :: .str _ :: _) => by simp [subtreeWithParent, subtree]
theorem forestWithParent_snd : ∀ (q : Option JSVal) (cs : List JSVal),
    (forestWithParent q cs).map Prod.snd = forest cs
  | _, [] => by simp [forestWithParent, forest]
  | q, x :: xs => by
    simp only [forestWithParent, forest, List.map_append]
    rw [subtreeWithParent_snd q x, forestWithParent_snd q xs]
end

theorem nodesWithParent_snd (tree : JSVal) :
    (nodesWithParent tree).map Prod.snd = nodes tree := by
  cases tree with
  | null => rfl
  | str _ => rfl
  | arr xs => exact forestWithParent_snd none xs

mutual
theorem subtreeWithParent_parent : ∀ (q : Option JSVal) (v p n : JSVal),
    (some p, n) ∈ subtreeWithParent q v → (q = some p ∧ n = v) ∨ IsChildOf n p
  | q, .arr (a :: b :: .arr cs :: rest), p, n, h => by
    simp only [subtreeWithParent, List.mem_cons, Prod.mk.injEq] at h
    rcases h with ⟨h1, h2⟩ | h
    · exact Or.inl ⟨h1.symm, h2⟩
    · rcases forestWithParent_parent _ cs p n h with ⟨h1, h2⟩ | h
      · have hp : JSVal.arr (a :: b :: .arr cs :: rest) = p := Option.some.inj h1
        subst hp
        exact Or.inr ⟨cs, rfl, h2⟩
      · exact Or.inr h
  | q, .null, p, n, h => by
    simp only [subtreeWithParent, List.mem_singleton, Prod.mk.injEq] at h
    exact Or.inl ⟨h.1.symm, h.2⟩
  | q, .str _, p, n, h => by
    simp only [subtreeWithParent, List.mem_singleton, Prod.mk.injEq] at h
    exact Or.inl ⟨h.1.symm, h.2⟩
  | q, .arr [], p, n, h => by
    simp only [subtreeWithParent, List.mem_singleton, Prod.mk.injEq] at h
    exact Or.inl ⟨h.1.symm, h.2⟩
  | q, .arr [_], p, n, h => by
    simp only [subtreeWithParent, List.mem_singleton, Prod.mk.injEq] at h
    exact Or.inl ⟨h.1.symm, h.2⟩
  | q, .arr [_, _], p, n, h => by
    simp only [subtreeWithParent, List.mem_singleton, Prod.mk.injEq] at h
    exact Or.inl ⟨h.1.symm, h.2⟩
  | q, .arr (_ :: _ :: .null :: _), p, n, h => by
    simp only [subtreeWithParent, List.mem_singleton, Prod.mk.injEq] at h
    exact Or.inl ⟨h.1.symm, h.2⟩
  | q, .arr (_ :: _ :: .str _ :: _), p, n, h => by
    simp only [subtreeWithParent, List.mem_singleton, Prod.mk.injEq] at h
    exact Or.inl ⟨h.1.symm, h.2⟩
theorem forestWithParent_parent : ∀ (q : Option JSVal) (cs : List JSVal) (p n : JSVal),
    (some p, n) ∈ forestWithParent q cs → (q = some p ∧ n ∈ cs) ∨ IsChildOf n p
  | _, [], p, n, h => by simp [forestWithParent] at h
  | q, x :: xs, p, n, h => by
    simp only [forestWithParent, List.mem_append] at h
    rcases h with h | h
    · rcases subtreeWithParent_parent q x p n h with ⟨h1, h2⟩ | h
      · exact Or.inl ⟨h1, by rw [h2]; exact List.mem_cons_self _ _⟩
      · exact Or.inr h
    · rcases forestWithParent_parent q xs p n h with ⟨h1, h2⟩ | h
      · exact Or.inl ⟨h1, List.mem_cons_of_mem _ h2⟩
      · exact Or.inr h
end

/-- Every pair of `nodesWithParent` with a parent is a genuine parent-child pair. -/
theorem nodesWithParent_parent (tree p n : JSVal)
    (h : (some p, n) ∈ nodesWithParent tree) : IsChildOf n p := by
  cases tree with
  | null => simp [nodesWithParent] at h
  | str _ => simp [nodesWithParent] at h
  | arr xs =>
    rcases forestWithParent_parent none xs p n h with ⟨h1, _⟩ | h
    · cases h1
    · exact h

/-! ## Theorems -/

/-- C2: every node of `NAVTREE`, at every depth, is an array of exactly three
components whose label and link are non-empty strings. -/
theorem navtree_nodes_labelled_triples :
    ∀ n ∈ nodes NAVTREE, ∃ l k c, n = .arr [.str l, .str k, c] ∧ l ≠ "" ∧ k ≠ "" := by
  have h : ∀ n ∈ nodes NAVTREE, labelledTriple n = true := by decide
  intro n hn
  exact labelledTriple_sound (h n hn)

/-- Instance of the triple shape at the node "mainpage2". -/
theorem navtree_nodes_labelled_triples_witness :
    JSVal.arr [.str "mainpage2", .str "md_mainpage2.html", .null] ∈ nodes NAVTREE ∧
      ∃ l k c, JSVal.arr [.str "mainpage2", .str "md_mainpage2.html", .null]
        = .arr [.str l, .str k, c] ∧ l ≠ "" ∧ k ≠ "" :=
  ⟨by decide, navtree_nodes_labelled_triples _ (by decide)⟩

/-- C1 as stated fails: the node "Liste aller Namensbereiche" of `NAVTREE` has
the string "namespaces_dup" as its children component, which is neither `null`
nor a sequence of well-formed nodes. -/
theorem navtree_children_string_counterexample :
    JSVal.arr [.str "Liste aller Namensbereiche", .str "namespaces.html",
        .str "namespaces_dup"] ∈ nodes NAVTREE ∧
      children (.arr [.str "Liste aller Namensbereiche", .str "namespaces.html",
        .str "namespaces_dup"]) = some (.str "namespaces_dup") ∧
      ¬ ChildrenNullOrNodes (.arr [.str "Liste aller Namensbereiche",
        .str "namespaces.html", .str "namespaces_dup"]) := by
  refine ⟨by decide, rfl, ?_⟩
  rintro (h | ⟨cs, h, _⟩)
  · exact absurd h (by decide)
  · have h2 : JSVal.str "namespaces_dup" = JSVal.arr cs := Option.some.inj h
    cases h2

/-- C1 amended: for every node of `NAVTREE`, at every depth, the children
component is `null`, a string (the name of a subtree loaded on demand), or a
sequence of nodes that are well-formed in that same sense. -/
theorem navtree_children_null_name_or_nodes :
    ∀ n ∈ nodes NAVTREE,
      children n = some .null ∨ (∃ s, children n = some (.str s)) ∨
        ∃ cs, children n = some (.arr cs) ∧ ∀ c ∈ cs, wellFormedDeferred c = true := by
  have h : ∀ n ∈ nodes NAVTREE, childrenCheck n = true := by decide
  intro n hn
  exact childrenCheck_sound (h n hn)

/-- Instance of the children alternatives at the node "Klassenhierarchie", whose children component is a string. -/
theorem navtree_children_null_name_or_nodes_witness :
    JSVal.arr [.str "Klassenhierarchie", .str "hierarchy.html", .str "hierarchy"]
        ∈ nodes NAVTREE ∧
      (children (.arr [.str "Klassenhierarchie", .str "hierarchy.html", .str "hierarchy"])
          = some .null ∨
        (∃ s, children (.arr [.str "Klassenhierarchie", .str "hierarchy.html",
          .str "hierarchy"]) = some (.str s)) ∨
        ∃ cs, children (.arr [.str "Klassenhierarchie", .str "hierarchy.html",
          .str "hierarchy"]) = some (.arr cs) ∧ ∀ c ∈ cs, wellFormedDeferred c = true) :=
  ⟨by decide, navtree_children_null_name_or_nodes _ (by decide)⟩

/-- C3: the script has exactly five top-level definitions, in this order
`NAVTREE`, `NAVTREEINDEX`, `SYNCONMSG`, `SYNCOFFMSG`, `LISTOFALLMEMBERS`; the
first two are initialised with array literals, the other three with string
literals, and none of the statements defines a function. -/
theorem navtreedata_five_literal_definitions :
    navtreedata.map TopLevel.name
        = ["NAVTREE", "NAVTREEINDEX", "SYNCONMSG", "SYNCOFFMSG", "LISTOFALLMEMBERS"] ∧
      navtreedata.length = 5 ∧
      (initialiser navtreedata "NAVTREE" = some NAVTREE ∧ NAVTREE.isArray = true) ∧
      (initialiser navtreedata "NAVTREEINDEX" = some NAVTREEINDEX ∧
        NAVTREEINDEX.isArray = true) ∧
      (initialiser navtreedata "SYNCONMSG" = some SYNCONMSG ∧ SYNCONMSG.isString = true) ∧
      (initialiser navtreedata "SYNCOFFMSG" = some SYNCOFFMSG ∧
        SYNCOFFMSG.isString = true) ∧
      (initialiser navtreedata "LISTOFALLMEMBERS" = some LISTOFALLMEMBERS ∧
        LISTOFALLMEMBERS.isString = true) ∧
      (∀ t ∈ navtreedata, t.isFunction = false) := by
  refine ⟨by decide, rfl, ⟨by decide, rfl⟩, ⟨by decide, rfl⟩, ⟨by decide, rfl⟩,
    ⟨by decide, rfl⟩, ⟨by decide, rfl⟩, by decide⟩

/-- C4: `NAVTREE` has a single root: its top-level array holds exactly one
node, labelled "DOKUMENTATION" with link "index.html", and every other node of
the tree is reached from that root through array-valued children. -/
theorem navtree_single_root :
    ∃ root, NAVTREE = .arr [root] ∧
      label root = some (.str "DOKUMENTATION") ∧
      link root = some (.str "index.html") ∧
      ∀ n ∈ nodes NAVTREE, n ≠ root → Descendant root n := by
  refine ⟨_, rfl, rfl, rfl, ?_⟩
  intro n hn hne
  simp only [nodes, NAVTREE, forest, List.append_nil] at hn
  rcases subtree_descendant _ n hn with h | h
  · exact absurd h hne
  · exact h

/-- C5: the link of every node of `NAVTREE` has the form `<page>.html`,
optionally followed by `#` and a non-empty anchor name, where `<page>` is
non-empty and contains neither `#` nor `/`. -/
theorem navtree_links_page_form :
    ∀ n ∈ nodes NAVTREE, ∃ k, link n = some (.str k) ∧ IsPageLink k := by
  have h : ∀ n ∈ nodes NAVTREE, (linkString n).map pageLinkCheck = some true := by decide
  intro n hn
  have hn2 := h n hn
  cases hk : linkString n with
  | none => rw [hk] at hn2; simp at hn2
  | some k =>
    rw [hk] at hn2
    simp only [Option.map_some', Option.some.injEq] at hn2
    exact ⟨k, linkString_eq_some hk, pageLinkCheck_sound hn2⟩

/-- Instance of the link form at the node "Bedienung", whose link carries an anchor. -/
theorem navtree_links_page_form_witness :
    JSVal.arr [.str "Bedienung", .str "index.html#autotoc_md41", .null] ∈ nodes NAVTREE ∧
      ∃ k, link (.arr [.str "Bedienung", .str "index.html#autotoc_md41", .null])
        = some (.str k) ∧ IsPageLink k :=
  ⟨by decide, navtree_links_page_form _ (by decide)⟩

/-- C6: `NAVTREEINDEX` has exactly one entry, "annotated.html"; that entry is
the link of a node of `NAVTREE`; the link of every node of `NAVTREE` is greater
than or equal to that entry in the order by character code, and the range
lookup over `NAVTREEINDEX` gives index 0 for it. -/
theorem navtreeindex_single_entry_covers_links :
    NAVTREEINDEX = .arr [.str "annotated.html"] ∧
      indexEntries NAVTREEINDEX = ["annotated.html"] ∧
      (∃ n ∈ nodes NAVTREE, link n = some (.str "annotated.html")) ∧
      (∀ n ∈ nodes NAVTREE, ∃ k, link n = some (.str k) ∧
        strLe "annotated.html" k = true ∧
        rangeLookup (indexEntries NAVTREEINDEX) k = some 0) := by
  refine ⟨rfl, by decide, by decide, ?_⟩
  have h : ∀ n ∈ nodes NAVTREE,
      (linkString n).map (fun k => strLe "annotated.html" k &&
        decide (rangeLookup (indexEntries NAVTREEINDEX) k = some 0)) = some true := by
    decide
  intro n hn
  have hn2 := h n hn
  cases hk : linkString n with
  | none => rw [hk] at hn2; simp at hn2
  | some k =>
    rw [hk] at hn2
    simp only [Option.map_some', Option.some.injEq, Bool.and_eq_true,
      decide_eq_true_eq] at hn2
    exact ⟨k, linkString_eq_some hk, hn2.1, hn2.2⟩

/-- C7: in pre-order, the numbers `N` of the links of the form
`index.html#autotoc_md<N>` are strictly increasing; every link of `NAVTREE`
with an anchor has that form, and no two nodes have the same link with an
anchor. -/
theorem navtree_autotoc_strictly_increasing :
    (autotocNumbers NAVTREE).Pairwise (fun a b => a < b) ∧
      (∀ k ∈ anchorLinks NAVTREE, (autotocNumber k).isSome = true) ∧
      (anchorLinks NAVTREE).Nodup := by
  refine ⟨by decide, by decide, by decide⟩

/-- C8: for every node of `NAVTREE` whose children component is a string, that
string is the node's link without the suffix `.html`, followed by `_dup` when
the link equals the link of the parent node and by nothing otherwise.  The
pairs of `nodesWithParent` are the nodes of `nodes` with their parents
(`nodesWithParent_snd`, `nodesWithParent_parent`). -/
theorem navtree_deferred_names :
    ∀ (p : Option JSVal) (n : JSVal), (p, n) ∈ nodesWithParent NAVTREE →
      ∀ s, children n = some (.str s) →
        ∃ k base : String, link n = some (.str k) ∧ k = base ++ ".html" ∧
          (p.bind link = some (.str k) → s = base ++ "_dup") ∧
          (p.bind link ≠ some (.str k) → s = base) := by
  have h : ∀ pn ∈ nodesWithParent NAVTREE, deferredNameCheck pn.1 pn.2 = true := by decide
  intro p n hmem s hs
  exact deferredNameCheck_sound (h (p, n) hmem) hs

/-- Instance of the naming rule at the node "Auflistung der Dateien" below "Dateien". -/
theorem navtree_deferred_names_witness :
    (some (JSVal.arr [.str "Dateien", .str "files.html", .arr [
          .arr [.str "Auflistung der Dateien", .str "files.html", .str "files_dup"]]]),
        JSVal.arr [.str "Auflistung der Dateien", .str "files.html", .str "files_dup"])
        ∈ nodesWithParent NAVTREE ∧
      children (.arr [.str "Auflistung der Dateien", .str "files.html", .str "files_dup"])
        = some (.str "files_dup") ∧
      ∃ k base : String,
        link (.arr [.str "Auflistung der Dateien", .str "files.html", .str "files_dup"])
          = some (.str k) ∧ k = base ++ ".html" ∧
        ((some (JSVal.arr [.str "Dateien", .str "files.html", .arr [
          .arr [.str "Auflistung der Dateien", .str "files.html", .str "files_dup"]]])).bind
            link = some (.str k) → "files_dup" = base ++ "_dup") ∧
        ((some (JSVal.arr [.str "Dateien", .str "files.html", .arr [
          .arr [.str "Auflistung der Dateien", .str "files.html", .str "files_dup"]]])).bind
            link ≠ some (.str k) → "files_dup" = base) :=
  ⟨by decide, rfl, navtree_deferred_names _ _ (by decide) _ rfl⟩

end NavTreeData
